import Mathlib

/-!
# Consul command table and shutdown relay (`commands.go`)

A shallow embedding of `commands.go`:

* the relay built by `makeShutdownCh`: a capacity-4 `signalCh` fed by
  `signal.Notify`, an unbuffered `resultCh`, and the listener goroutine
  `for { <-signalCh; resultCh <- struct{}{} }`;
* the process state touched by `init` and by the factories: the `cli.BasicUi`
  values allocated, the plain channels made with `make`, and the relays;
* the `Commands` table with its 29 factories.

Channels are FIFO lists, goroutines are program counters, and a run is a list
of actions applied by a total step function (an action that is blocked leaves
the state as it is).
-/

namespace Consul

/-! ## Signals -/

/-- An `os.Signal` value.  `interrupt` is `os.Interrupt`, `sigterm` is
`syscall.SIGTERM`; `other n` is any other signal number. -/
inductive Signal where
  | interrupt
  | sigterm
  | other (n : Nat)
  deriving DecidableEq, Repr

/-- The signals named in `signal.Notify(signalCh, os.Interrupt, syscall.SIGTERM)`. -/
def subscribed : Signal → Bool
  | .interrupt => true
  | .sigterm => true
  | .other _ => false

/-- Capacity of `signalCh`: `make(chan os.Signal, 4)`. -/
def signalChCap : Nat := 4

/-! ## One relay -/

/-- Program counter of the listener goroutine
`go func() { for { <-signalCh; resultCh <- struct{}{} } }()`.
`Armed`: blocked in `<-signalCh`.  `Delivering s`: blocked in
`resultCh <- struct{}{}`; `s` records which signal was dequeued (the Go code
discards the value, the record is kept to speak about order).  `Exited`: the
goroutine has returned. -/
inductive Listener where
  | Armed
  | Delivering (s : Signal)
  | Exited
  deriving DecidableEq, Repr

/-- State of what one call of `makeShutdownCh` creates.  `signalCh` is the
content of the buffered channel, oldest first.  `resultCh` is unbuffered and so
has no content of its own: a value is in flight exactly while the listener is
`Delivering`.  `received` lists what the consumer of `resultCh` has read so
far (each entry is one `struct{}{}`, tagged with the signal it came from) and
`discarded` lists the signals `signal.Notify` could not enqueue. -/
structure Relay where
  signalCh : List Signal
  listener : Listener
  received : List Signal
  discarded : List Signal
  deriving DecidableEq, Repr

/-- The relay right after `makeShutdownCh` returns: both channels empty, the
goroutine started and about to receive from `signalCh`. -/
def Relay.fresh : Relay :=
  { signalCh := [], listener := .Armed, received := [], discarded := [] }

/-- Delivery of one signal by the `os/signal` package to `signalCh`.  Only the
signals passed to `signal.Notify` are delivered; the delivery does not block,
so a signal that finds the buffer full is not enqueued. -/
def Relay.notify (s : Signal) (r : Relay) : Relay :=
  if subscribed s then
    if r.signalCh.length < signalChCap then
      { r with signalCh := r.signalCh ++ [s] }
    else
      { r with discarded := r.discarded ++ [s] }
  else r

/-- The listener completes `<-signalCh`: possible only when it is `Armed` and
the buffer is not empty. -/
def Relay.dequeue (r : Relay) : Relay :=
  match r.listener, r.signalCh with
  | .Armed, s :: rest => { r with signalCh := rest, listener := .Delivering s }
  | _, _ => r

/-- The consumer receives from `resultCh`.  The channel is unbuffered, so this
is the rendezvous with the listener's `resultCh <- struct{}{}`: possible only
when the listener is `Delivering`, after which the loop goes back to
`<-signalCh`. -/
def Relay.read (r : Relay) : Relay :=
  match r.listener with
  | .Delivering s => { r with listener := .Armed, received := r.received ++ [s] }
  | _ => r

/-- The events of a run of one relay. -/
inductive RelayAction where
  | signal (s : Signal)
  | dequeue
  | read
  deriving DecidableEq, Repr

/-- One step of a relay. -/
def Relay.step (r : Relay) : RelayAction → Relay
  | .signal s => r.notify s
  | .dequeue => r.dequeue
  | .read => r.read

/-- A run: the actions of the list happen from left to right. -/
def Relay.run (r : Relay) (t : List RelayAction) : Relay :=
  t.foldl Relay.step r

/-- The interrupt and SIGTERM signals that arrive during a run, in order. -/
def arrivals : List RelayAction → List Signal
  | [] => []
  | .signal s :: t => if subscribed s then s :: arrivals t else arrivals t
  | _ :: t => arrivals t

/-- Number of consumer reads attempted in a run. -/
def readCount : List RelayAction → Nat
  | [] => 0
  | .read :: t => readCount t + 1
  | _ :: t => readCount t

/-- The signal the listener holds while blocked in its send, if any. -/
def Listener.held : Listener → List Signal
  | .Delivering s => [s]
  | _ => []

/-- Signals received by the relay and not yet read by the consumer, oldest
first: the one held by the listener, then the buffer. -/
def Relay.pending (r : Relay) : List Signal :=
  r.listener.held ++ r.signalCh

/-- The consumer reads `k` times, the listener running whenever it can: each
round lets the listener dequeue and then lets the consumer receive. -/
def Relay.drain : Nat → Relay → Relay
  | 0, r => r
  | k + 1, r => Relay.drain k (r.dequeue.read)

/-! ## Process state -/

/-- Identity of a `*cli.BasicUi` value: the `id`-th one the process allocated. -/
structure UiRef where
  id : Nat
  deriving DecidableEq, Repr

/-- A `chan struct{}` value stored in a command.  `made n` is the `n`-th channel
created by a bare `make(chan struct{})` (nothing ever sends on it from this
file); `result i` is the `resultCh` of the `i`-th relay. -/
inductive Chan where
  | made (n : Nat)
  | result (i : Nat)
  deriving DecidableEq, Repr

/-- What `commands.go` allocates and starts.  `uis` counts the `cli.BasicUi`
values allocated, `chans` the channels created by a bare `make(chan struct{})`,
and `relays` has one entry per call of `makeShutdownCh`, in call order: its
`signalCh` (registered with `signal.Notify`), its `resultCh` and its listener
goroutine. -/
structure Proc where
  uis : Nat
  chans : Nat
  relays : List Relay
  deriving DecidableEq, Repr

/-- The process before `init` has run. -/
def Proc.start : Proc := { uis := 0, chans := 0, relays := [] }

/-- Body of `makeShutdownCh`: creates `resultCh` and `signalCh`, registers
`signalCh` for interrupt and SIGTERM, starts the listener, returns `resultCh`. -/
def makeShutdownCh (p : Proc) : Chan × Proc :=
  (.result p.relays.length, { p with relays := p.relays ++ [Relay.fresh] })

/-- The expression `make(chan struct{})` in the `agent` factory. -/
def makeChan (p : Proc) : Chan × Proc :=
  (.made p.chans, { p with chans := p.chans + 1 })

/-- Number of listener goroutines that have not returned. -/
def Proc.listeners (p : Proc) : Nat :=
  (p.relays.filter (fun r => decide (r.listener ≠ .Exited))).length

/-- Apply `f` to the `i`-th relay; nothing changes when there is none. -/
def modifyRelay (f : Relay → Relay) : Nat → List Relay → List Relay
  | _, [] => []
  | 0, r :: rs => f r :: rs
  | i + 1, r :: rs => r :: modifyRelay f i rs

/-- The process receives signal `s`: the `os/signal` package offers it to
every channel registered with `signal.Notify`, that is to every relay. -/
def Proc.signal (s : Signal) (p : Proc) : Proc :=
  { p with relays := p.relays.map (Relay.notify s) }

/-- The listener of relay `i` completes its receive. -/
def Proc.dequeue (i : Nat) (p : Proc) : Proc :=
  { p with relays := modifyRelay Relay.dequeue i p.relays }

/-- The holder of `Chan.result i` receives from it. -/
def Proc.read (i : Nat) (p : Proc) : Proc :=
  { p with relays := modifyRelay Relay.read i p.relays }

/-! ## Commands -/

/-- The `base.FlagSet*` constants used in the table. -/
inductive FlagSet where
  | FlagSetNone
  | FlagSetClientHTTP
  | FlagSetHTTP
  deriving DecidableEq, Repr

/-- The fields of `base.Command` set by the table.  `Ui = none` is Go's `nil`. -/
structure BaseCommand where
  Flags : FlagSet
  Ui : Option UiRef
  deriving DecidableEq, Repr

/-- The values read from package `version`: `version.GitCommit`,
`version.Version`, `version.VersionPrerelease` and the result of
`version.GetHumanVersion()`. -/
structure VersionInfo where
  GitCommit : String
  Version : String
  VersionPrerelease : String
  HumanVersion : String
  deriving DecidableEq, Repr

/-- The command values built by the factories, one constructor per Go type,
with the fields the composite literals of `commands.go` set.  A field of type
`Option` holding `none` is Go's `nil`. -/
inductive Command where
  | AgentCommand (Revision Version VersionPrerelease HumanVersion : String)
      (Ui : Option UiRef) (ShutdownCh : Option Chan)
  | ConfigTestCommand (Command : BaseCommand)
  | EventCommand (Ui : Option UiRef)
  | ExecCommand (ShutdownCh : Option Chan) (Ui : Option UiRef)
  | ForceLeaveCommand (Command : BaseCommand)
  | KVCommand (Ui : Option UiRef)
  | KVDeleteCommand (Ui : Option UiRef)
  | KVGetCommand (Ui : Option UiRef)
  | KVPutCommand (Ui : Option UiRef)
  | KVExportCommand (Ui : Option UiRef)
  | KVImportCommand (Ui : Option UiRef)
  | JoinCommand (Ui : Option UiRef)
  | KeygenCommand (Ui : Option UiRef)
  | KeyringCommand (Ui : Option UiRef)
  | LeaveCommand (Command : BaseCommand)
  | LockCommand (ShutdownCh : Option Chan) (Command : BaseCommand)
  | MaintCommand (Command : BaseCommand)
  | MembersCommand (Command : BaseCommand)
  | MonitorCommand (ShutdownCh : Option Chan) (Command : BaseCommand)
  | OperatorCommand (Command : BaseCommand)
  | InfoCommand (Ui : Option UiRef)
  | ReloadCommand (Command : BaseCommand)
  | RTTCommand (Command : BaseCommand)
  | SnapshotCommand (Ui : Option UiRef)
  | SnapshotRestoreCommand (Command : BaseCommand)
  | SnapshotSaveCommand (Command : BaseCommand)
  | SnapshotInspectCommand (Command : BaseCommand)
  | VersionCommand (HumanVersion : String) (Ui : Option UiRef)
  | WatchCommand (ShutdownCh : Option Chan) (Ui : Option UiRef)
  deriving DecidableEq, Repr

/-- The `Ui` of a command, its own field or the one of the embedded
`base.Command`; `none` is `nil`. -/
def Command.ui : Command → Option UiRef
  | .AgentCommand _ _ _ _ u _ => u
  | .ConfigTestCommand b => b.Ui
  | .EventCommand u => u
  | .ExecCommand _ u => u
  | .ForceLeaveCommand b => b.Ui
  | .KVCommand u => u
  | .KVDeleteCommand u => u
  | .KVGetCommand u => u
  | .KVPutCommand u => u
  | .KVExportCommand u => u
  | .KVImportCommand u => u
  | .JoinCommand u => u
  | .KeygenCommand u => u
  | .KeyringCommand u => u
  | .LeaveCommand b => b.Ui
  | .LockCommand _ b => b.Ui
  | .MaintCommand b => b.Ui
  | .MembersCommand b => b.Ui
  | .MonitorCommand _ b => b.Ui
  | .OperatorCommand b => b.Ui
  | .InfoCommand u => u
  | .ReloadCommand b => b.Ui
  | .RTTCommand b => b.Ui
  | .SnapshotCommand u => u
  | .SnapshotRestoreCommand b => b.Ui
  | .SnapshotSaveCommand b => b.Ui
  | .SnapshotInspectCommand b => b.Ui
  | .VersionCommand _ u => u
  | .WatchCommand _ u => u

/-- Whether the command type is built with a `ShutdownCh` field. -/
def Command.hasShutdownCh : Command → Bool
  | .AgentCommand .. => true
  | .ExecCommand .. => true
  | .LockCommand .. => true
  | .MonitorCommand .. => true
  | .WatchCommand .. => true
  | _ => false

/-- The `ShutdownCh` field of a command; `none` when the field is `nil` or the
type has no such field. -/
def Command.shutdownCh : Command → Option Chan
  | .AgentCommand _ _ _ _ _ c => c
  | .ExecCommand c _ => c
  | .LockCommand c _ => c
  | .MonitorCommand c _ => c
  | .WatchCommand c _ => c
  | _ => none

/-- The Go `error` a factory may return. -/
structure ConstructionError where
  msg : String
  deriving DecidableEq, Repr

/-- A `cli.CommandFactory`, `func() (cli.Command, error)`, as a function of the
process state: `.ok c` is `(c, nil)`, `.error e` is `(nil, e)`. -/
abbrev Factory := Proc → Except ConstructionError Command × Proc

/-- A factory whose body is `return &T{... Ui: ui ...}, nil` with no call. -/
def plainFactory (c : Command) : Factory :=
  fun p => (.ok c, p)

/-- The map literal assigned to `Commands` in `init`, in source order; `ui` is
the variable the closures capture. -/
def commandTable (v : VersionInfo) (ui : UiRef) : List (String × Factory) :=
  [ ("agent", fun p =>
      let (ch, p1) := makeChan p
      (.ok (.AgentCommand v.GitCommit v.Version v.VersionPrerelease v.HumanVersion
        (some ui) (some ch)), p1)),
    ("configtest", plainFactory (.ConfigTestCommand ⟨.FlagSetNone, some ui⟩)),
    ("event", plainFactory (.EventCommand (some ui))),
    ("exec", fun p =>
      let (ch, p1) := makeShutdownCh p
      (.ok (.ExecCommand (some ch) (some ui)), p1)),
    ("force-leave", plainFactory (.ForceLeaveCommand ⟨.FlagSetClientHTTP, some ui⟩)),
    ("kv", plainFactory (.KVCommand (some ui))),
    ("kv delete", plainFactory (.KVDeleteCommand (some ui))),
    ("kv get", plainFactory (.KVGetCommand (some ui))),
    ("kv put", plainFactory (.KVPutCommand (some ui))),
    ("kv export", plainFactory (.KVExportCommand (some ui))),
    ("kv import", plainFactory (.KVImportCommand (some ui))),
    ("join", plainFactory (.JoinCommand (some ui))),
    ("keygen", plainFactory (.KeygenCommand (some ui))),
    ("keyring", plainFactory (.KeyringCommand (some ui))),
    ("leave", plainFactory (.LeaveCommand ⟨.FlagSetClientHTTP, some ui⟩)),
    ("lock", fun p =>
      let (ch, p1) := makeShutdownCh p
      (.ok (.LockCommand (some ch) ⟨.FlagSetHTTP, some ui⟩), p1)),
    ("maint", plainFactory (.MaintCommand ⟨.FlagSetClientHTTP, some ui⟩)),
    ("members", plainFactory (.MembersCommand ⟨.FlagSetClientHTTP, some ui⟩)),
    ("monitor", fun p =>
      let (ch, p1) := makeShutdownCh p
      (.ok (.MonitorCommand (some ch) ⟨.FlagSetClientHTTP, some ui⟩), p1)),
    ("operator", plainFactory (.OperatorCommand ⟨.FlagSetHTTP, some ui⟩)),
    ("info", plainFactory (.InfoCommand (some ui))),
    ("reload", plainFactory (.ReloadCommand ⟨.FlagSetClientHTTP, some ui⟩)),
    ("rtt", plainFactory (.RTTCommand ⟨.FlagSetClientHTTP, some ui⟩)),
    ("snapshot", plainFactory (.SnapshotCommand (some ui))),
    ("snapshot restore", plainFactory (.SnapshotRestoreCommand ⟨.FlagSetHTTP, some ui⟩)),
    ("snapshot save", plainFactory (.SnapshotSaveCommand ⟨.FlagSetHTTP, some ui⟩)),
    ("snapshot inspect", plainFactory (.SnapshotInspectCommand ⟨.FlagSetNone, some ui⟩)),
    ("version", plainFactory (.VersionCommand v.HumanVersion (some ui))),
    ("watch", fun p =>
      let (ch, p1) := makeShutdownCh p
      (.ok (.WatchCommand (some ch) (some ui)), p1)) ]

/-- Function `init`: `ui := &cli.BasicUi{Writer: os.Stdout}` allocates the
sink, then the table is built around it.  Returns the sink, the table and the
process state. -/
def init (v : VersionInfo) (p : Proc) : UiRef × List (String × Factory) × Proc :=
  let ui : UiRef := ⟨p.uis⟩
  (ui, commandTable v ui, { p with uis := p.uis + 1 })

/-- The sink created by `init` at process start. -/
def theUi (v : VersionInfo) : UiRef := (init v Proc.start).1

/-- The package variable `Commands` once `init` has run. -/
def Commands (v : VersionInfo) : List (String × Factory) := (init v Proc.start).2.1

/-- The process state once `init` has run. -/
def Proc.afterInit (v : VersionInfo) : Proc := (init v Proc.start).2.2

/-- The map index expression `Commands[name]` with its `ok` flag: `some f` when
the key is present, `none` (NotFound) when it is not. -/
def lookup (v : VersionInfo) (name : String) : Option Factory :=
  (Commands v).lookup name

/-- The keys of the map literal, in source order. -/
def registeredNames : List String :=
  [ "agent", "configtest", "event", "exec", "force-leave", "kv", "kv delete",
    "kv get", "kv put", "kv export", "kv import", "join", "keygen", "keyring",
    "leave", "lock", "maint", "members", "monitor", "operator", "info", "reload",
    "rtt", "snapshot", "snapshot restore", "snapshot save", "snapshot inspect",
    "version", "watch" ]

/-- The keys whose factory body contains a call of `makeShutdownCh`. -/
def relayNames : List String := ["exec", "lock", "monitor", "watch"]

/-- The dispatcher resolves `name` and calls the factory; `none` when the name
is not in the table. -/
def construct (v : VersionInfo) (name : String) (p : Proc) :
    Option (Except ConstructionError Command × Proc) :=
  (lookup v name).map (fun f => f p)

/-- The process state after the dispatcher handled `name`: unchanged when the
name is not found. -/
def Proc.invoke (v : VersionInfo) (name : String) (p : Proc) : Proc :=
  match construct v name p with
  | some res => res.2
  | none => p

/-- Invoke the factory `f` `n` times in a row, collecting what it returned. -/
def invokeTimes (f : Factory) : Nat → Proc → List (Except ConstructionError Command) × Proc
  | 0, p => ([], p)
  | n + 1, p =>
    let (res, p1) := f p
    let (rest, p2) := invokeTimes f n p1
    (res :: rest, p2)

/-- The events of a run of the whole process. -/
inductive Action where
  | signal (s : Signal)
  | dequeue (i : Nat)
  | read (i : Nat)
  | invoke (name : String)
  deriving DecidableEq, Repr

/-- One step of the process. -/
def Proc.step (v : VersionInfo) (p : Proc) : Action → Proc
  | .signal s => p.signal s
  | .dequeue i => p.dequeue i
  | .read i => p.read i
  | .invoke name => p.invoke v name

/-- A run of the process. -/
def Proc.run (v : VersionInfo) (p : Proc) (t : List Action) : Proc :=
  t.foldl (Proc.step v) p

/-- Call `makeShutdownCh` `n` times in a row. -/
def makeShutdownChTimes : Nat → Proc → Proc
  | 0, p => p
  | n + 1, p => makeShutdownChTimes n (makeShutdownCh p).2

/-- The relay behind a channel value, if it is a `resultCh`. -/
def Proc.relayOf (p : Proc) : Chan → Option Relay
  | .result i => p.relays[i]?
  | .made _ => none

/-- Whether an action is the invocation of a factory that calls
`makeShutdownCh`. -/
def Action.startsRelay : Action → Bool
  | .invoke name => decide (name ∈ relayNames)
  | _ => false

/-- Number of calls of `makeShutdownCh` made during a run. -/
def relayInvokes (t : List Action) : Nat :=
  (t.filter Action.startsRelay).length

/-- The holder of `Chan.result i` reads `k` times, the listener of relay `i`
running whenever it can; the other relays do not move. -/
def Proc.drain (k : Nat) (i : Nat) (p : Proc) : Proc :=
  { p with relays := modifyRelay (Relay.drain k) i p.relays }

/-- Two calls of `makeShutdownCh` in a row: the two channels returned and the
process state after the second call. -/
def makeTwo (p : Proc) : Chan × Chan × Proc :=
  let (c1, p1) := makeShutdownCh p
  let (c2, p2) := makeShutdownCh p1
  (c1, c2, p2)

/-- The dispatcher builds the `exec` command, four interrupts arrive while its
consumer does not read, the dispatcher builds the `watch` command, then one
SIGTERM arrives. -/
def saturatedRun : List Action :=
  [.invoke "exec", .signal .interrupt, .signal .interrupt, .signal .interrupt,
    .signal .interrupt, .invoke "watch", .signal .sigterm]

/-- As `saturatedRun`, with five interrupts of which the listener of the first
relay has dequeued the first. -/
def saturatedRunHeld : List Action :=
  [.invoke "exec", .signal .interrupt, .dequeue 0, .signal .interrupt, .signal .interrupt,
    .signal .interrupt, .signal .interrupt, .invoke "watch", .signal .sigterm]

/-- A concrete value of the `version` package data, for closed statements. -/
def sampleVersion : VersionInfo :=
  { GitCommit := "21f2d5a", Version := "0.7.5", VersionPrerelease := "dev",
    HumanVersion := "v0.7.5-dev (21f2d5a)" }

/-! ## The table: lookup and construction -/

theorem lookup_isSome_iff_mem {β : Type} (l : List (String × β)) (s : String) :
    (∃ f, l.lookup s = some f) ↔ s ∈ l.map Prod.fst := by
  induction l with
  | nil => simp
  | cons hd tl ih =>
    obtain ⟨k, b⟩ := hd
    by_cases h : s = k
    · subst h
      simp [List.lookup]
    · have hb : (s == k) = false := by simpa using h
      simp [List.lookup, hb, ih, h]

theorem mem_of_lookup {β : Type} (l : List (String × β)) (s : String) (f : β)
    (h : l.lookup s = some f) : (s, f) ∈ l := by
  induction l with
  | nil => simp at h
  | cons hd tl ih =>
    obtain ⟨k, b⟩ := hd
    by_cases hk : s = k
    · subst hk
      simp [List.lookup] at h
      simp [h]
    · have hb : (s == k) = false := by simpa using hk
      simp [List.lookup, hb] at h
      exact List.mem_cons_of_mem _ (ih h)

theorem commandTable_keys (v : VersionInfo) (ui : UiRef) :
    (commandTable v ui).map Prod.fst = registeredNames := rfl

/-- What holds of every entry of the map literal, whatever the process state
the factory is called in. -/
theorem commandTable_entry (v : VersionInfo) (ui : UiRef) (name : String) (f : Factory)
    (h : (name, f) ∈ commandTable v ui) (p : Proc) :
    ∃ c, (f p).1 = .ok c ∧ c.ui = some ui ∧ (f p).2.uis = p.uis ∧
      (c.hasShutdownCh = false → (f p).2 = p) ∧
      (name ∉ relayNames → (f p).2.relays = p.relays) ∧
      (name ∈ relayNames → (f p).2 = (makeShutdownCh p).2 ∧
        c.shutdownCh = some (makeShutdownCh p).1) := by
  simp only [commandTable, List.mem_cons, List.mem_singleton, Prod.mk.injEq, List.not_mem_nil,
    or_false] at h
  rcases h with h | h | h | h | h | h | h | h | h | h | h | h | h | h | h | h | h | h | h | h |
    h | h | h | h | h | h | h | h | h
  all_goals
    obtain ⟨rfl, rfl⟩ := h
    simp [plainFactory, makeShutdownCh, makeChan, Command.ui, Command.hasShutdownCh,
      Command.shutdownCh, relayNames]

theorem lookup_entry (v : VersionInfo) (name : String) (f : Factory)
    (h : lookup v name = some f) : (name, f) ∈ commandTable v (theUi v) :=
  mem_of_lookup _ _ _ h

/-- C1: lookup in `Commands` is by exact string match.  A string resolves to a
factory exactly when it is one of the 29 keys of the map literal (which are
pairwise different) and is NotFound otherwise; "save", "get", "kv ",
"snapshot sav" and "nonexistent" are NotFound; "snapshot" and "snapshot save"
both resolve, to different factories, the first building a `SnapshotCommand`
and the second a `SnapshotSaveCommand`. -/
theorem lookup_exact_match (v : VersionInfo) :
    (∀ s, (∃ f, lookup v s = some f) ↔ s ∈ registeredNames) ∧
    (∀ s, lookup v s = none ↔ s ∉ registeredNames) ∧
    (Commands v).map Prod.fst = registeredNames ∧
    registeredNames.length = 29 ∧ registeredNames.Nodup ∧
    lookup v "save" = none ∧ lookup v "get" = none ∧ lookup v "kv " = none ∧
    lookup v "snapshot sav" = none ∧ lookup v "nonexistent" = none ∧
    (∃ f g, lookup v "snapshot" = some f ∧ lookup v "snapshot save" = some g ∧ f ≠ g ∧
      (∀ p, (f p).1 = .ok (.SnapshotCommand (some (theUi v)))) ∧
      (∀ p, (g p).1 = .ok (.SnapshotSaveCommand ⟨.FlagSetHTTP, some (theUi v)⟩))) := by
  have hiff : ∀ s, (∃ f, lookup v s = some f) ↔ s ∈ registeredNames := by
    intro s
    have := lookup_isSome_iff_mem (Commands v) s
    rwa [show (Commands v).map Prod.fst = registeredNames from rfl] at this
  refine ⟨hiff, ?_, rfl, rfl, by decide, rfl, rfl, rfl, rfl, rfl, ?_⟩
  · intro s
    rw [← hiff s]
    cases h : lookup v s <;> simp
  · refine ⟨plainFactory (.SnapshotCommand (some (theUi v))),
      plainFactory (.SnapshotSaveCommand ⟨.FlagSetHTTP, some (theUi v)⟩), rfl, rfl, ?_,
      fun _ => rfl, fun _ => rfl⟩
    intro hfg
    have := congrArg (fun h : Factory => (h Proc.start).1) hfg
    simp [plainFactory] at this

/-- C2: the factory of every registered name, called in any process state,
returns a command with a nil error; when the command type has no `ShutdownCh`
field the call changes nothing in the process, and the relays created by
`makeShutdownCh` are untouched for every name other than exec, lock, monitor and
watch. -/
theorem factory_succeeds (v : VersionInfo) (name : String) (f : Factory) (p : Proc)
    (h : lookup v name = some f) :
    ∃ c, (f p).1 = .ok c ∧
      (c.hasShutdownCh = false → (f p).2 = p) ∧
      (name ∉ relayNames → (f p).2.relays = p.relays) := by
  obtain ⟨c, hc, _, _, h1, h2, _⟩ := commandTable_entry v (theUi v) name f (lookup_entry v name f h) p
  exact ⟨c, hc, h1, h2⟩

theorem factory_succeeds_witness :
    lookup sampleVersion "kv get" =
        some (plainFactory (.KVGetCommand (some (theUi sampleVersion)))) ∧
      ∃ c, ((plainFactory (.KVGetCommand (some (theUi sampleVersion)))) Proc.start).1 = .ok c ∧
        (c.hasShutdownCh = false →
          ((plainFactory (.KVGetCommand (some (theUi sampleVersion)))) Proc.start).2 =
            Proc.start) ∧
        ("kv get" ∉ relayNames →
          ((plainFactory (.KVGetCommand (some (theUi sampleVersion)))) Proc.start).2.relays =
            Proc.start.relays) :=
  ⟨rfl, factory_succeeds sampleVersion "kv get" _ Proc.start rfl⟩

/-! ## Relays inside the process -/

theorem modifyRelay_length (f : Relay → Relay) (i : Nat) (rs : List Relay) :
    (modifyRelay f i rs).length = rs.length := by
  induction rs generalizing i with
  | nil => cases i <;> rfl
  | cons r rs ih => cases i <;> simp [modifyRelay, ih]

theorem modifyRelay_getElem?_eq (f : Relay → Relay) (i : Nat) (rs : List Relay) :
    (modifyRelay f i rs)[i]? = rs[i]?.map f := by
  induction rs generalizing i with
  | nil => cases i <;> simp [modifyRelay]
  | cons r rs ih => cases i <;> simp [modifyRelay, ih]

theorem modifyRelay_getElem?_ne (f : Relay → Relay) (i j : Nat) (rs : List Relay)
    (h : i ≠ j) : (modifyRelay f i rs)[j]? = rs[j]? := by
  induction rs generalizing i j with
  | nil => cases i <;> simp [modifyRelay]
  | cons r rs ih =>
    cases i with
    | zero =>
      cases j with
      | zero => exact absurd rfl h
      | succ j => simp [modifyRelay]
    | succ i =>
      cases j with
      | zero => simp [modifyRelay]
      | succ j => simpa [modifyRelay] using ih i j (by omega)

theorem modifyRelay_append_length (f : Relay → Relay) (rs : List Relay) (r : Relay)
    (tl : List Relay) :
    modifyRelay f rs.length (rs ++ r :: tl) = rs ++ f r :: tl := by
  induction rs with
  | nil => rfl
  | cons a rs ih => simp [modifyRelay, ih]

theorem notify_listener (s : Signal) (r : Relay) : (r.notify s).listener = r.listener := by
  unfold Relay.notify
  split_ifs <;> rfl

theorem dequeue_exited_iff (r : Relay) :
    r.dequeue.listener = .Exited ↔ r.listener = .Exited := by
  unfold Relay.dequeue
  split
  · rename_i h _
    simp [h]
  · rfl

theorem read_exited_iff (r : Relay) :
    r.read.listener = .Exited ↔ r.listener = .Exited := by
  unfold Relay.read
  split
  · rename_i h
    simp [h]
  · rfl

theorem alive_map (f : Relay → Relay)
    (hf : ∀ r, (f r).listener = .Exited ↔ r.listener = .Exited) (rs : List Relay) :
    ((rs.map f).filter (fun r => decide (r.listener ≠ .Exited))).length =
      (rs.filter (fun r => decide (r.listener ≠ .Exited))).length := by
  simp only [ne_eq, decide_not]
  induction rs with
  | nil => rfl
  | cons r rs ih =>
    by_cases h : r.listener = .Exited
    · simp [List.filter_cons, h, (hf r).2 h, ih]
    · have h1 : ¬ (f r).listener = .Exited := fun h1 => h ((hf r).1 h1)
      simp [List.filter_cons, h, h1, ih]

theorem alive_modify (f : Relay → Relay)
    (hf : ∀ r, (f r).listener = .Exited ↔ r.listener = .Exited) (i : Nat) (rs : List Relay) :
    ((modifyRelay f i rs).filter (fun r => decide (r.listener ≠ .Exited))).length =
      (rs.filter (fun r => decide (r.listener ≠ .Exited))).length := by
  simp only [ne_eq, decide_not]
  induction rs generalizing i with
  | nil => cases i <;> rfl
  | cons r rs ih =>
    cases i with
    | zero =>
      by_cases h : r.listener = .Exited
      · simp [modifyRelay, List.filter_cons, h, (hf r).2 h]
      · have h1 : ¬ (f r).listener = .Exited := fun h1 => h ((hf r).1 h1)
        simp [modifyRelay, List.filter_cons, h, h1]
    | succ i =>
      by_cases h : r.listener = .Exited
      · simp [modifyRelay, List.filter_cons, h, ih]
      · simp [modifyRelay, List.filter_cons, h, ih]

theorem listeners_signal (s : Signal) (p : Proc) : (p.signal s).listeners = p.listeners :=
  alive_map (Relay.notify s) (fun r => by rw [notify_listener]) p.relays

theorem listeners_dequeue (i : Nat) (p : Proc) : (p.dequeue i).listeners = p.listeners :=
  alive_modify Relay.dequeue dequeue_exited_iff i p.relays

theorem listeners_read (i : Nat) (p : Proc) : (p.read i).listeners = p.listeners :=
  alive_modify Relay.read read_exited_iff i p.relays

theorem listeners_makeShutdownCh (p : Proc) :
    (makeShutdownCh p).2.listeners = p.listeners + 1 := by
  simp [makeShutdownCh, Proc.listeners, List.filter_append, Relay.fresh]

theorem listeners_invoke (v : VersionInfo) (name : String) (p : Proc) :
    (p.invoke v name).listeners =
      p.listeners + (if name ∈ relayNames then 1 else 0) := by
  unfold Proc.invoke construct
  cases h : lookup v name with
  | none =>
    have hn : name ∉ relayNames := by
      intro hmem
      have hreg : name ∈ registeredNames := by
        revert hmem
        simp only [relayNames, registeredNames, List.mem_cons, List.mem_singleton]
        rintro (rfl | rfl | rfl | rfl | h) <;> simp_all
      obtain ⟨f, hf⟩ := (lookup_isSome_iff_mem (Commands v) name).2 hreg
      have hf2 : lookup v name = some f := hf
      rw [h] at hf2
      cases hf2
    simp [hn]
  | some f =>
    obtain ⟨c, _, _, _, _, h2, h3⟩ :=
      commandTable_entry v (theUi v) name f (lookup_entry v name f h) p
    by_cases hn : name ∈ relayNames
    · simp [hn, (h3 hn).1, listeners_makeShutdownCh]
    · simp [hn, Proc.listeners, h2 hn]

theorem listeners_step (v : VersionInfo) (p : Proc) (a : Action) :
    (p.step v a).listeners = p.listeners + (if a.startsRelay then 1 else 0) := by
  cases a with
  | signal s => simp [Proc.step, Action.startsRelay, listeners_signal]
  | dequeue i => simp [Proc.step, Action.startsRelay, listeners_dequeue]
  | read i => simp [Proc.step, Action.startsRelay, listeners_read]
  | invoke name => simp [Proc.step, Action.startsRelay, listeners_invoke]

theorem listeners_run (v : VersionInfo) (t : List Action) (p : Proc) :
    (p.run v t).listeners = p.listeners + relayInvokes t := by
  induction t generalizing p with
  | nil => simp [Proc.run, relayInvokes]
  | cons a t ih =>
    have h := ih (p.step v a)
    simp only [Proc.run, List.foldl_cons] at h ⊢
    rw [h, listeners_step]
    by_cases ha : a.startsRelay = true
    · simp [relayInvokes, List.filter_cons, ha]
      omega
    · simp [relayInvokes, List.filter_cons, ha]

theorem relayOf_makeShutdownCh (p : Proc) :
    (makeShutdownCh p).2.relayOf (makeShutdownCh p).1 = some Relay.fresh := by
  simp [makeShutdownCh, Proc.relayOf]

theorem notify_fresh (s : Signal) (hs : subscribed s = true) :
    Relay.fresh.notify s = { Relay.fresh with signalCh := [s] } := by
  simp [Relay.notify, hs, Relay.fresh, signalChCap]

theorem signal_getElem? (s : Signal) (q : Proc) (i : Nat) :
    (q.signal s).relays[i]? = q.relays[i]?.map (Relay.notify s) := by
  simp [Proc.signal]

theorem dequeue_getElem?_eq (q : Proc) (i : Nat) :
    (q.dequeue i).relays[i]? = q.relays[i]?.map Relay.dequeue :=
  modifyRelay_getElem?_eq _ _ _

theorem read_getElem?_eq (q : Proc) (i : Nat) :
    (q.read i).relays[i]? = q.relays[i]?.map Relay.read :=
  modifyRelay_getElem?_eq _ _ _

theorem dequeue_getElem?_ne (q : Proc) (i j : Nat) (h : i ≠ j) :
    (q.dequeue i).relays[j]? = q.relays[j]? :=
  modifyRelay_getElem?_ne _ _ _ _ h

theorem read_getElem?_ne (q : Proc) (i j : Nat) (h : i ≠ j) :
    (q.read i).relays[j]? = q.relays[j]? :=
  modifyRelay_getElem?_ne _ _ _ _ h

theorem relay_roundtrip (i : Nat) (s : Signal) (hs : subscribed s = true)
    (q : Proc) (hq : q.relays[i]? = some Relay.fresh) :
    (((q.signal s).dequeue i).read i).relays[i]? =
      some { Relay.fresh with received := [s] } := by
  rw [read_getElem?_eq, dequeue_getElem?_eq, signal_getElem?, hq]
  simp only [Option.map_some', notify_fresh s hs]
  rfl

/-- C3 (as amended): the factory of each of exec, lock, monitor and watch gets
its `ShutdownCh` from its own call of `makeShutdownCh` at construction time: the
call adds one fresh relay, the command holds that relay's `resultCh`, and an
interrupt or SIGTERM arriving afterwards is relayed into it (the listener
dequeues it and the consumer reads it).  The `agent` factory instead stores a
bare `make(chan struct{})`: no relay is created and no listener feeds that
channel. -/
theorem relay_factories_call_makeShutdownCh (v : VersionInfo) (name : String) (f : Factory)
    (p : Proc) (s : Signal) (hn : name ∈ relayNames) (h : lookup v name = some f)
    (hs : subscribed s = true) :
    (∃ c, (f p).1 = .ok c ∧ (f p).2 = (makeShutdownCh p).2 ∧
      c.shutdownCh = some (.result p.relays.length) ∧
      (f p).2.relays = p.relays ++ [Relay.fresh] ∧
      (f p).2.listeners = p.listeners + 1 ∧
      (f p).2.relayOf (.result p.relays.length) = some Relay.fresh ∧
      ((((f p).2.signal s).dequeue p.relays.length).read p.relays.length).relayOf
        (.result p.relays.length) = some { Relay.fresh with received := [s] }) ∧
    (∃ g, lookup v "agent" = some g ∧ ∀ q, ∃ c, (g q).1 = .ok c ∧
      c.shutdownCh = some (.made q.chans) ∧ (g q).2.relays = q.relays ∧
      (g q).2.relayOf (.made q.chans) = none) := by
  constructor
  · obtain ⟨c, hc, _, _, _, _, h3⟩ :=
      commandTable_entry v (theUi v) name f (lookup_entry v name f h) p
    obtain ⟨h4, h5⟩ := h3 hn
    refine ⟨c, hc, h4, h5, ?_, ?_, ?_, ?_⟩
    · rw [h4]; rfl
    · rw [h4, listeners_makeShutdownCh]
    · rw [h4]; exact relayOf_makeShutdownCh p
    · exact relay_roundtrip p.relays.length s hs _ (by rw [h4]; simp [makeShutdownCh])
  · refine ⟨_, rfl, fun q => ⟨_, rfl, rfl, rfl, rfl⟩⟩


theorem relay_factories_call_makeShutdownCh_witness :
    ∃ f, "exec" ∈ relayNames ∧ lookup sampleVersion "exec" = some f ∧
      subscribed .interrupt = true ∧
      (((f Proc.start).2.signal .interrupt).dequeue 0).read 0 =
        { Proc.start with relays := [{ Relay.fresh with received := [.interrupt] }] } := by
  obtain ⟨f, hf⟩ : ∃ f, lookup sampleVersion "exec" = some f := ⟨_, rfl⟩
  have h := (relay_factories_call_makeShutdownCh sampleVersion "exec" f Proc.start .interrupt
    (by decide) hf rfl).1
  obtain ⟨c, _, h2, _⟩ := h
  refine ⟨f, by decide, hf, rfl, ?_⟩
  rw [h2]
  rfl

/-- C3, counterexample: the `agent` factory builds a command with a
`ShutdownCh` field, yet makes no call of `makeShutdownCh`: the channel is a bare
`make(chan struct{})`, the process has no relay and no listener afterwards, and
the state differs from the one a call of `makeShutdownCh` would leave. -/
theorem agent_shutdownCh_has_no_listener :
    ∃ f c, lookup sampleVersion "agent" = some f ∧
      (f (Proc.afterInit sampleVersion)).1 = .ok c ∧
      c.hasShutdownCh = true ∧
      c.shutdownCh = some (.made 0) ∧
      (f (Proc.afterInit sampleVersion)).2.relays = [] ∧
      (f (Proc.afterInit sampleVersion)).2.listeners = 0 ∧
      (f (Proc.afterInit sampleVersion)).2.relayOf (.made 0) = none ∧
      (f (Proc.afterInit sampleVersion)).2 ≠ (makeShutdownCh (Proc.afterInit sampleVersion)).2 :=
  ⟨_, _, rfl, rfl, rfl, rfl, rfl, rfl, rfl, by decide⟩

theorem invokeTimes_spec (v : VersionInfo) (name : String) (f : Factory)
    (h : lookup v name = some f) (n : Nat) (p : Proc) :
    (invokeTimes f n p).2.uis = p.uis ∧ (invokeTimes f n p).1.length = n ∧
    ∀ res ∈ (invokeTimes f n p).1, ∃ c, res = .ok c ∧ c.ui = some (theUi v) := by
  induction n generalizing p with
  | zero => simp [invokeTimes]
  | succ n ih =>
    obtain ⟨c, hc, hu, hs, _⟩ := commandTable_entry v (theUi v) name f (lookup_entry v name f h) p
    obtain ⟨i1, i2, i3⟩ := ih (f p).2
    simp only [invokeTimes]
    refine ⟨by rw [i1, hs], by simp [i2], ?_⟩
    intro res hres
    simp only [List.mem_cons] at hres
    rcases hres with rfl | hres
    · exact ⟨c, hc, hu⟩
    · exact i3 res hres

/-- C4: `init` allocates exactly one `cli.BasicUi`; the factory of every
registered name, invoked any number `n` of times from any process state, never
allocates another one, and every command it returns has that one sink as its
`Ui` (its own field or the one of the embedded `base.Command`), never `nil`. -/
theorem ui_shared (v : VersionInfo) (name : String) (f : Factory) (n : Nat) (p : Proc)
    (h : lookup v name = some f) :
    (Proc.afterInit v).uis = 1 ∧ theUi v = ⟨0⟩ ∧
    (invokeTimes f n p).2.uis = p.uis ∧
    (invokeTimes f n p).1.length = n ∧
    (∀ res ∈ (invokeTimes f n p).1, ∃ c, res = .ok c ∧ c.ui = some (theUi v)) ∧
    (∃ c, (f p).1 = .ok c ∧ c.ui = some (theUi v) ∧ (f p).2.uis = p.uis) := by
  obtain ⟨h1, h2, h3⟩ := invokeTimes_spec v name f h n p
  obtain ⟨c, hc, hu, hs, _⟩ := commandTable_entry v (theUi v) name f (lookup_entry v name f h) p
  exact ⟨rfl, rfl, h1, h2, h3, c, hc, hu, hs⟩

theorem ui_shared_witness :
    ∃ f, lookup sampleVersion "lock" = some f ∧
      (invokeTimes f 3 (Proc.afterInit sampleVersion)).2.uis = 1 ∧
      ∀ res ∈ (invokeTimes f 3 (Proc.afterInit sampleVersion)).1,
        ∃ c, res = .ok c ∧ c.ui = some (theUi sampleVersion) := by
  obtain ⟨f, hf⟩ : ∃ f, lookup sampleVersion "lock" = some f := ⟨_, rfl⟩
  have h := ui_shared sampleVersion "lock" f 3 (Proc.afterInit sampleVersion) hf
  exact ⟨f, hf, h.2.2.1, h.2.2.2.2.1⟩

theorem makeShutdownChTimes_listeners (n : Nat) (p : Proc) :
    (makeShutdownChTimes n p).listeners = p.listeners + n := by
  induction n generalizing p with
  | zero => rfl
  | succ n ih =>
    rw [makeShutdownChTimes, ih, listeners_makeShutdownCh]
    omega

theorem relayInvokes_all (names : List String) (h : ∀ x ∈ names, x ∈ relayNames) :
    relayInvokes (names.map Action.invoke) = names.length := by
  induction names with
  | nil => rfl
  | cons x xs ih =>
    have hx : x ∈ relayNames := h x (List.mem_cons_self _ _)
    have := ih (fun y hy => h y (List.mem_cons_of_mem _ hy))
    simp only [relayInvokes] at this ⊢
    simp [List.filter_cons, Action.startsRelay, hx, this]

/-- C8: the number of live listeners never decreases along a step or a run;
each call of `makeShutdownCh` adds exactly one; from zero, `n` calls give `n`
listeners, and so do `n` invocations of the exec, lock, monitor or watch
factories; invoking any other name, a signal, a dequeue or a read leave the
count as it is, so after any run the count is the number of invocations of those
four factories. -/
theorem listener_count (v : VersionInfo) :
    (∀ (p : Proc) (a : Action), p.listeners ≤ (p.step v a).listeners) ∧
    (∀ (p : Proc) (t : List Action), p.listeners ≤ (p.run v t).listeners) ∧
    (∀ p : Proc, (makeShutdownCh p).2.listeners = p.listeners + 1) ∧
    Proc.start.listeners = 0 ∧ (Proc.afterInit v).listeners = 0 ∧
    (∀ n, (makeShutdownChTimes n Proc.start).listeners = n) ∧
    (∀ names : List String, (∀ x ∈ names, x ∈ relayNames) →
      ((Proc.afterInit v).run v (names.map Action.invoke)).listeners = names.length) ∧
    (∀ t : List Action, ((Proc.afterInit v).run v t).listeners = relayInvokes t) ∧
    (∀ (p : Proc) (name : String), name ∈ relayNames → (p.invoke v name).listeners = p.listeners + 1) ∧
    (∀ (p : Proc) (name : String), name ∉ relayNames → (p.invoke v name).listeners = p.listeners) ∧
    (∀ (p : Proc) (s : Signal), (p.signal s).listeners = p.listeners) ∧
    (∀ (p : Proc) (i : Nat), (p.dequeue i).listeners = p.listeners) ∧
    (∀ (p : Proc) (i : Nat), (p.read i).listeners = p.listeners) := by
  have h0 : (Proc.afterInit v).listeners = 0 := rfl
  refine ⟨?_, ?_, listeners_makeShutdownCh, rfl, h0, ?_, ?_, ?_, ?_, ?_,
    fun p s => listeners_signal s p, fun p i => listeners_dequeue i p,
    fun p i => listeners_read i p⟩
  · intro p a
    rw [listeners_step]
    omega
  · intro p t
    rw [listeners_run]
    omega
  · intro n
    rw [makeShutdownChTimes_listeners]
    simp [Proc.start, Proc.listeners]
  · intro names h
    rw [listeners_run, h0, relayInvokes_all names h]
    omega
  · intro t
    rw [listeners_run, h0]
    omega
  · intro p name h
    rw [listeners_invoke]
    simp [h]
  · intro p name h
    rw [listeners_invoke]
    simp [h]

theorem drain_getElem?_eq (k i : Nat) (q : Proc) :
    (q.drain k i).relays[i]? = q.relays[i]?.map (Relay.drain k) :=
  modifyRelay_getElem?_eq _ _ _

theorem drain_getElem?_ne (k i j : Nat) (q : Proc) (h : i ≠ j) :
    (q.drain k i).relays[j]? = q.relays[j]? :=
  modifyRelay_getElem?_ne _ _ _ _ h

theorem drain_quiet (k : Nat) (r : Relay) (h1 : r.listener = .Armed) (h2 : r.signalCh = []) :
    Relay.drain k r = r := by
  induction k with
  | zero => rfl
  | succ k ih =>
    obtain ⟨ch, l, rc, d⟩ := r
    simp only at h1 h2
    subst h1 h2
    simpa [Relay.drain, Relay.dequeue, Relay.read] using ih

theorem drain_one_pending (k : Nat) (s : Signal) :
    Relay.drain (k + 1) { Relay.fresh with signalCh := [s] } =
      { Relay.fresh with received := [s] } := by
  rw [Relay.drain]
  exact drain_quiet k _ rfl rfl

theorem append_getElem?_fst (rs : List Relay) (a : Relay) (tl : List Relay) :
    (rs ++ a :: tl)[rs.length]? = some a := by
  induction rs with
  | nil => simp
  | cons r rs ih => simpa using ih

theorem append_getElem?_snd (rs : List Relay) (a b : Relay) (tl : List Relay) :
    (rs ++ a :: b :: tl)[rs.length + 1]? = some b := by
  induction rs with
  | nil => simp
  | cons r rs ih => simpa using ih

/-- Fan-out when both relays are fresh at the arrival: two calls of
`makeShutdownCh` in a row return two different channels, each with its own
relay; one interrupt or SIGTERM arriving next is buffered once in each relay;
the consumer of the first channel reads exactly one event however often it
reads, which leaves the second relay as it was, and the consumer of the second
then also reads exactly one event.  In any process state a read or a dequeue on
relay `i` leaves every other relay `j` unchanged. -/
theorem relays_fan_out (p : Proc) (s : Signal) (k : Nat) (hs : subscribed s = true) :
    (makeTwo p).1 = .result p.relays.length ∧
    (makeTwo p).2.1 = .result (p.relays.length + 1) ∧
    (makeTwo p).1 ≠ (makeTwo p).2.1 ∧
    (makeTwo p).2.2.relays = p.relays ++ [Relay.fresh, Relay.fresh] ∧
    (makeTwo p).2.2.listeners = p.listeners + 2 ∧
    ((makeTwo p).2.2.signal s).relayOf (makeTwo p).1 =
      some { Relay.fresh with signalCh := [s] } ∧
    ((makeTwo p).2.2.signal s).relayOf (makeTwo p).2.1 =
      some { Relay.fresh with signalCh := [s] } ∧
    (((makeTwo p).2.2.signal s).drain (k + 1) p.relays.length).relayOf (makeTwo p).1 =
      some { Relay.fresh with received := [s] } ∧
    (((makeTwo p).2.2.signal s).drain (k + 1) p.relays.length).relayOf (makeTwo p).2.1 =
      some { Relay.fresh with signalCh := [s] } ∧
    ((((makeTwo p).2.2.signal s).drain (k + 1) p.relays.length).drain (k + 1)
      (p.relays.length + 1)).relayOf (makeTwo p).1 =
      some { Relay.fresh with received := [s] } ∧
    ((((makeTwo p).2.2.signal s).drain (k + 1) p.relays.length).drain (k + 1)
      (p.relays.length + 1)).relayOf (makeTwo p).2.1 =
      some { Relay.fresh with received := [s] } ∧
    (∀ (q : Proc) (i j : Nat), i ≠ j →
      (q.read i).relays[j]? = q.relays[j]? ∧ (q.dequeue i).relays[j]? = q.relays[j]?) := by
  have hrel : (makeTwo p).2.2.relays = p.relays ++ [Relay.fresh, Relay.fresh] := by
    simp [makeTwo, makeShutdownCh]
  have hi : ((makeTwo p).2.2.signal s).relays[p.relays.length]? =
      some { Relay.fresh with signalCh := [s] } := by
    rw [signal_getElem?, hrel, append_getElem?_fst, Option.map_some', notify_fresh s hs]
  have hj : ((makeTwo p).2.2.signal s).relays[p.relays.length + 1]? =
      some { Relay.fresh with signalCh := [s] } := by
    rw [signal_getElem?, hrel, append_getElem?_snd, Option.map_some', notify_fresh s hs]
  have hne : p.relays.length ≠ p.relays.length + 1 := by omega
  refine ⟨rfl, ?_, ?_, hrel, ?_, hi, ?_, ?_, ?_, ?_, ?_, ?_⟩
  · simp [makeTwo, makeShutdownCh]
  · simp [makeTwo, makeShutdownCh]
  · simp [Proc.listeners, hrel, List.filter_append, Relay.fresh]
  · simpa [makeTwo, makeShutdownCh, Proc.relayOf] using hj
  · show (Proc.drain _ _ _).relays[p.relays.length]? = _
    rw [drain_getElem?_eq, hi, Option.map_some', drain_one_pending]
  · have : (makeTwo p).2.1 = .result (p.relays.length + 1) := by
      simp [makeTwo, makeShutdownCh]
    rw [this]
    show (Proc.drain _ _ _).relays[p.relays.length + 1]? = _
    rw [drain_getElem?_ne _ _ _ _ hne, hj]
  · show (Proc.drain _ _ (Proc.drain _ _ _)).relays[p.relays.length]? = _
    rw [drain_getElem?_ne _ _ _ _ hne.symm, drain_getElem?_eq, hi, Option.map_some',
      drain_one_pending]
  · have : (makeTwo p).2.1 = .result (p.relays.length + 1) := by
      simp [makeTwo, makeShutdownCh]
    rw [this]
    show (Proc.drain _ _ (Proc.drain _ _ _)).relays[p.relays.length + 1]? = _
    rw [drain_getElem?_eq, drain_getElem?_ne _ _ _ _ hne, hj, Option.map_some',
      drain_one_pending]
  · intro q i j h
    exact ⟨read_getElem?_ne q i j h, dequeue_getElem?_ne q i j h⟩

/-! ## One relay: runs, conservation and bounds -/

theorem run_cons (r : Relay) (a : RelayAction) (t : List RelayAction) :
    r.run (a :: t) = (r.step a).run t := rfl

theorem run_append (r : Relay) (t u : List RelayAction) :
    r.run (t ++ u) = (r.run t).run u := by
  simp [Relay.run, List.foldl_append]

theorem held_length_le (l : Listener) : l.held.length ≤ 1 := by
  cases l <;> simp [Listener.held]

/-- One round of `drain` on a live relay hands the oldest pending signal to the consumer. -/
theorem dequeue_read (r : Relay) (h : r.listener ≠ .Exited) :
    r.dequeue.read.received = r.received ++ r.pending.take 1 ∧
    r.dequeue.read.pending = r.pending.drop 1 ∧
    r.dequeue.read.discarded = r.discarded ∧
    r.dequeue.read.listener = .Armed := by
  obtain ⟨ch, l, rc, d⟩ := r
  cases l with
  | Armed =>
    cases ch with
    | nil => simp [Relay.dequeue, Relay.read, Relay.pending, Listener.held]
    | cons s rest => simp [Relay.dequeue, Relay.read, Relay.pending, Listener.held]
  | Delivering s => simp [Relay.dequeue, Relay.read, Relay.pending, Listener.held]
  | Exited => exact absurd rfl h

theorem drain_spec (k : Nat) (r : Relay) (h : r.listener ≠ .Exited) :
    (Relay.drain k r).received = r.received ++ r.pending.take k ∧
    (Relay.drain k r).pending = r.pending.drop k ∧
    (Relay.drain k r).discarded = r.discarded ∧
    (Relay.drain k r).listener ≠ .Exited := by
  induction k generalizing r with
  | zero => simp [Relay.drain, h]
  | succ k ih =>
    obtain ⟨h1, h2, h3, h4⟩ := dequeue_read r h
    obtain ⟨i1, i2, i3, i4⟩ := ih r.dequeue.read (by rw [h4]; simp)
    refine ⟨?_, ?_, ?_, i4⟩
    · rw [Relay.drain, i1, h1, h2, List.append_assoc]
      congr 1
      cases r.pending <;> simp
    · rw [Relay.drain, i2, h2]
      simp
    · rw [Relay.drain, i3, h3]

/-- A step keeps the listener in its loop and the buffer within its capacity. -/
theorem step_live (r : Relay) (a : RelayAction) (h : r.listener ≠ .Exited)
    (hc : r.signalCh.length ≤ signalChCap) :
    (r.step a).listener ≠ .Exited ∧ (r.step a).signalCh.length ≤ signalChCap := by
  obtain ⟨ch, l, rc, d⟩ := r
  cases a with
  | signal s =>
    simp only [Relay.step, Relay.notify]
    split_ifs <;> simp_all
    omega
  | dequeue =>
    cases l <;> cases ch <;> simp_all [Relay.step, Relay.dequeue]
    omega
  | read =>
    cases l <;> simp_all [Relay.step, Relay.read]

theorem run_live (t : List RelayAction) (r : Relay) (h : r.listener ≠ .Exited)
    (hc : r.signalCh.length ≤ signalChCap) :
    (r.run t).listener ≠ .Exited ∧ (r.run t).signalCh.length ≤ signalChCap := by
  induction t generalizing r with
  | nil => exact ⟨h, hc⟩
  | cons a t ih =>
    obtain ⟨h1, h2⟩ := step_live r a h hc
    exact ih (r.step a) h1 h2

/-- Conservation: every subscribed arrival ends up read, pending or discarded. -/
theorem step_count (r : Relay) (a : RelayAction) :
    (r.step a).received.length + (r.step a).pending.length + (r.step a).discarded.length =
      r.received.length + r.pending.length + r.discarded.length + (arrivals [a]).length := by
  obtain ⟨ch, l, rc, d⟩ := r
  cases a with
  | signal s =>
    simp only [Relay.step, Relay.notify, arrivals]
    split_ifs <;> simp [Relay.pending] <;> omega
  | dequeue =>
    cases l <;> cases ch <;>
      simp [Relay.step, Relay.dequeue, Relay.pending, Listener.held, arrivals]
  | read =>
    cases l <;> simp [Relay.step, Relay.read, Relay.pending, Listener.held, arrivals]
    omega

/-- While there is room in the buffer nothing is discarded and order is kept. -/
theorem step_room (r : Relay) (a : RelayAction)
    (h : (arrivals [a]).length + r.signalCh.length ≤ signalChCap) :
    (r.step a).received ++ (r.step a).pending = r.received ++ r.pending ++ arrivals [a] ∧
    (r.step a).discarded = r.discarded ∧
    (r.step a).signalCh.length ≤ (arrivals [a]).length + r.signalCh.length := by
  obtain ⟨ch, l, rc, d⟩ := r
  cases a with
  | signal s =>
    by_cases hs : subscribed s = true
    · have : ch.length < signalChCap := by
        simp [arrivals, hs] at h; omega
      simp [Relay.step, Relay.notify, hs, this, arrivals, Relay.pending]
      omega
    · simp [Relay.step, Relay.notify, hs, arrivals]
  | dequeue =>
    cases l <;> cases ch <;> simp [Relay.step, Relay.dequeue, Relay.pending, Listener.held, arrivals]
  | read =>
    cases l <;> simp [Relay.step, Relay.read, Relay.pending, Listener.held, arrivals]

theorem arrivals_cons (a : RelayAction) (t : List RelayAction) :
    arrivals (a :: t) = arrivals [a] ++ arrivals t := by
  cases a with
  | signal s => by_cases hs : subscribed s = true <;> simp [arrivals, hs]
  | dequeue => simp [arrivals]
  | read => simp [arrivals]

theorem run_room (t : List RelayAction) (r : Relay)
    (h : (arrivals t).length + r.signalCh.length ≤ signalChCap) :
    (r.run t).received ++ (r.run t).pending = r.received ++ r.pending ++ arrivals t ∧
    (r.run t).discarded = r.discarded := by
  induction t generalizing r with
  | nil => simp [Relay.run, arrivals]
  | cons a t ih =>
    have hc := arrivals_cons a t
    rw [hc, List.length_append] at h
    obtain ⟨h1, h2, h3⟩ := step_room r a (by omega)
    obtain ⟨i1, i2⟩ := ih (r.step a) (by omega)
    rw [run_cons, i1, i2, h1, h2, hc]
    simp

theorem run_count (t : List RelayAction) (r : Relay) :
    (r.run t).received.length + (r.run t).pending.length + (r.run t).discarded.length =
      r.received.length + r.pending.length + r.discarded.length + (arrivals t).length := by
  induction t generalizing r with
  | nil => simp [Relay.run, arrivals]
  | cons a t ih =>
    have hc := arrivals_cons a t
    rw [run_cons, ih, step_count, hc, List.length_append]
    omega

theorem pending_length_le (r : Relay) (hc : r.signalCh.length ≤ signalChCap) :
    r.pending.length ≤ 5 := by
  have := held_length_le r.listener
  simp only [Relay.pending, List.length_append, signalChCap] at *
  omega

/-- A burst with no consumer read: the step of the retention bounds. -/
theorem step_burst (r : Relay) (a : RelayAction) (n : Nat) (ha : a ≠ .read)
    (h : r.signalCh.length ≤ signalChCap ∧ r.received = [] ∧
      min n 4 ≤ r.pending.length ∧ r.pending.length ≤ min n 5 ∧
      r.pending.length + r.discarded.length = n) :
    (r.step a).signalCh.length ≤ signalChCap ∧ (r.step a).received = [] ∧
      min (n + (arrivals [a]).length) 4 ≤ (r.step a).pending.length ∧
      (r.step a).pending.length ≤ min (n + (arrivals [a]).length) 5 ∧
      (r.step a).pending.length + (r.step a).discarded.length = n + (arrivals [a]).length := by
  obtain ⟨ch, l, rc, d⟩ := r
  have hl := held_length_le l
  simp only [Relay.pending, List.length_append, signalChCap] at h hl ⊢
  obtain ⟨h1, h2, h3, h4, h5⟩ := h
  cases a with
  | signal s =>
    by_cases hs : subscribed s = true
    · by_cases hlt : ch.length < 4
      · simp [Relay.step, Relay.notify, hs, hlt, arrivals, signalChCap, h2]
        omega
      · simp [Relay.step, Relay.notify, hs, hlt, arrivals, signalChCap, h2]
        omega
    · simp [Relay.step, Relay.notify, hs, arrivals, h2]
      omega
  | dequeue =>
    cases l <;> cases ch <;>
      simp_all [Relay.step, Relay.dequeue, Listener.held, arrivals]
    omega
  | read => exact absurd rfl ha

theorem readCount_cons (a : RelayAction) (t : List RelayAction) (h : readCount (a :: t) = 0) :
    a ≠ .read ∧ readCount t = 0 := by
  cases a <;> simp_all [readCount]

theorem run_burst (t : List RelayAction) (r : Relay) (n : Nat) (hr : readCount t = 0)
    (h : r.signalCh.length ≤ signalChCap ∧ r.received = [] ∧
      min n 4 ≤ r.pending.length ∧ r.pending.length ≤ min n 5 ∧
      r.pending.length + r.discarded.length = n) :
    (r.run t).signalCh.length ≤ signalChCap ∧ (r.run t).received = [] ∧
      min (n + (arrivals t).length) 4 ≤ (r.run t).pending.length ∧
      (r.run t).pending.length ≤ min (n + (arrivals t).length) 5 ∧
      (r.run t).pending.length + (r.run t).discarded.length = n + (arrivals t).length := by
  induction t generalizing r n with
  | nil => simpa [Relay.run, arrivals] using h
  | cons a t ih =>
    obtain ⟨ha, ht⟩ := readCount_cons a t hr
    have hc := arrivals_cons a t
    have := ih (r.step a) (n + (arrivals [a]).length) ht (step_burst r a n ha h)
    rw [run_cons, hc, List.length_append, ← Nat.add_assoc]
    exact this

theorem fresh_live : Relay.fresh.listener ≠ .Exited ∧ Relay.fresh.signalCh.length ≤ signalChCap := by
  simp [Relay.fresh]

/-- C10: in every run of a fresh relay at most 5 signals are held (at most 4
in `signalCh`, at most one by the listener), and every arrival is read, held or
discarded.  For a burst of `n` arrivals with no consumer read, the number held
is at least `min n 4` and at most `min n 5`, the rest of the burst is discarded,
and what the consumer can read afterwards is exactly what is held: `k` reads
give the first `k` held signals, and in any continuation without arrivals what
was read plus what is still held is what was held. -/
theorem bounded_retention (t : List RelayAction) :
    (Relay.fresh.run t).pending.length ≤ 5 ∧
    (Relay.fresh.run t).signalCh.length ≤ 4 ∧
    (Relay.fresh.run t).received.length + (Relay.fresh.run t).pending.length +
      (Relay.fresh.run t).discarded.length = (arrivals t).length ∧
    (readCount t = 0 →
      min (arrivals t).length 4 ≤ (Relay.fresh.run t).pending.length ∧
      (Relay.fresh.run t).pending.length ≤ min (arrivals t).length 5 ∧
      (Relay.fresh.run t).discarded.length =
        (arrivals t).length - (Relay.fresh.run t).pending.length ∧
      (∀ k, (Relay.drain k (Relay.fresh.run t)).received = (Relay.fresh.run t).pending.take k) ∧
      (∀ u, arrivals u = [] →
        ((Relay.fresh.run t).run u).received ++ ((Relay.fresh.run t).run u).pending =
          (Relay.fresh.run t).pending)) := by
  obtain ⟨hl, hc⟩ := run_live t Relay.fresh fresh_live.1 fresh_live.2
  refine ⟨pending_length_le _ hc, hc, ?_, ?_⟩
  · rw [run_count]
    simp [Relay.fresh, Relay.pending, Listener.held]
  · intro hr
    obtain ⟨_, h2, h3, h4, h5⟩ := run_burst t Relay.fresh 0 hr
      (by simp [Relay.fresh, Relay.pending, Listener.held])
    simp only [Nat.zero_add] at h3 h4 h5
    refine ⟨h3, h4, by omega, ?_, ?_⟩
    · intro k
      rw [(drain_spec k _ hl).1, h2]
      rfl
    · intro u hu
      have := (run_room u (Relay.fresh.run t) (by rw [hu]; simpa using hc)).1
      rw [this, h2, hu]
      simp

/-- C6: on a fresh relay, when one signal, or three signals, arrive with no
consumer read, under any interleaving with the listener: nothing is discarded,
the relay holds exactly those signals in arrival order, the consumer's first `k`
reads yield the first `k` of them, after as many reads as signals it has read
exactly them in arrival order and nothing is left, and no continuation without
arrivals yields more. -/
theorem burst_within_capacity_delivered (sigs : List Signal) (t : List RelayAction)
    (hlen : sigs.length = 1 ∨ sigs.length = 3) (harr : arrivals t = sigs)
    (hnr : readCount t = 0) :
    (Relay.fresh.run t).received = [] ∧
    (Relay.fresh.run t).discarded = [] ∧
    (Relay.fresh.run t).pending = sigs ∧
    (∀ k, (Relay.drain k (Relay.fresh.run t)).received = sigs.take k) ∧
    (∀ k, sigs.length ≤ k →
      (Relay.drain k (Relay.fresh.run t)).received = sigs ∧
      (Relay.drain k (Relay.fresh.run t)).pending = []) ∧
    (∀ u, arrivals u = [] →
      ((Relay.fresh.run t).run u).received ++ ((Relay.fresh.run t).run u).pending = sigs ∧
      ((Relay.fresh.run t).run u).discarded = []) := by
  obtain ⟨hl, hc⟩ := run_live t Relay.fresh fresh_live.1 fresh_live.2
  have hroom : (arrivals t).length + Relay.fresh.signalCh.length ≤ signalChCap := by
    rw [harr]
    rcases hlen with h | h <;> simp [h, Relay.fresh, signalChCap]
  obtain ⟨h1, h2⟩ := run_room t Relay.fresh hroom
  have hrec : (Relay.fresh.run t).received = [] :=
    (run_burst t Relay.fresh 0 hnr (by simp [Relay.fresh, Relay.pending, Listener.held])).2.1
  have hpend : (Relay.fresh.run t).pending = sigs := by
    rw [hrec, harr] at h1
    simpa [Relay.fresh, Relay.pending, Listener.held] using h1
  have hdrain : ∀ k, (Relay.drain k (Relay.fresh.run t)).received = sigs.take k := by
    intro k
    rw [(drain_spec k _ hl).1, hrec, hpend]
    rfl
  refine ⟨hrec, h2, hpend, hdrain, ?_, ?_⟩
  · intro k hk
    refine ⟨by rw [hdrain k, List.take_of_length_le hk], ?_⟩
    rw [(drain_spec k _ hl).2.1, hpend, List.drop_of_length_le hk]
  · intro u hu
    obtain ⟨g1, g2⟩ := run_room u (Relay.fresh.run t) (by rw [hu]; simpa using hc)
    rw [g1, g2, h2, hrec, hpend, hu]
    simp [Relay.fresh]

theorem burst_within_capacity_delivered_witness :
    arrivals [.signal .interrupt, .dequeue, .signal .sigterm, .signal .interrupt] =
      [.interrupt, .sigterm, .interrupt] ∧
    readCount [.signal .interrupt, .dequeue, .signal .sigterm, .signal .interrupt] = 0 ∧
    (Relay.drain 3 (Relay.fresh.run
      [.signal .interrupt, .dequeue, .signal .sigterm, .signal .interrupt])).received =
      [.interrupt, .sigterm, .interrupt] :=
  ⟨rfl, rfl, ((burst_within_capacity_delivered [.interrupt, .sigterm, .interrupt]
    [.signal .interrupt, .dequeue, .signal .sigterm, .signal .interrupt]
    (Or.inr rfl) rfl rfl).2.2.2.2.1 3 (by decide)).1⟩

/-- C9: every state the listener reaches from the fresh relay is `Armed` or
`Delivering`, never `Exited`.  From `Armed` a step either stays `Armed` or, when
the step is a dequeue of the head of `signalCh`, goes to `Delivering`; from
`Delivering` a step either stays there or, when the step is the consumer's read,
goes back to `Armed`; both transitions do happen when enabled. -/
theorem listener_state_machine :
    (∀ t, (Relay.fresh.run t).listener = .Armed ∨
      ∃ s, (Relay.fresh.run t).listener = .Delivering s) ∧
    (∀ t, (Relay.fresh.run t).listener ≠ .Exited) ∧
    Relay.fresh.listener = .Armed ∧
    (∀ (r : Relay) (a : RelayAction), r.listener = .Armed →
      (r.step a).listener = .Armed ∨
      ∃ s, (r.step a).listener = .Delivering s ∧ a = .dequeue ∧
        r.signalCh = s :: (r.step a).signalCh) ∧
    (∀ (r : Relay) (a : RelayAction) (s : Signal), r.listener = .Delivering s →
      (r.step a).listener = .Delivering s ∨
      ((r.step a).listener = .Armed ∧ a = .read ∧ (r.step a).received = r.received ++ [s])) ∧
    (∀ (r : Relay) (s : Signal) (rest : List Signal), r.listener = .Armed →
      r.signalCh = s :: rest → (r.step .dequeue).listener = .Delivering s) ∧
    (∀ (r : Relay) (s : Signal), r.listener = .Delivering s →
      (r.step .read).listener = .Armed) := by
  have hlive : ∀ t, (Relay.fresh.run t).listener ≠ .Exited := fun t =>
    (run_live t Relay.fresh fresh_live.1 fresh_live.2).1
  refine ⟨?_, hlive, rfl, ?_, ?_, ?_, ?_⟩
  · intro t
    have := hlive t
    cases h : (Relay.fresh.run t).listener with
    | Armed => exact Or.inl rfl
    | Delivering s => exact Or.inr ⟨s, rfl⟩
    | Exited => exact absurd h this
  · rintro ⟨ch, l, rc, d⟩ a h
    simp only at h
    subst h
    cases a with
    | signal s =>
      left
      simp only [Relay.step, Relay.notify]
      split_ifs <;> rfl
    | dequeue =>
      cases ch with
      | nil => left; rfl
      | cons s rest => right; exact ⟨s, rfl, rfl, rfl⟩
    | read => left; rfl
  · rintro ⟨ch, l, rc, d⟩ a s h
    simp only at h
    subst h
    cases a with
    | signal s' =>
      left
      simp only [Relay.step, Relay.notify]
      split_ifs <;> rfl
    | dequeue => left; rfl
    | read => right; exact ⟨rfl, rfl, rfl⟩
  · rintro ⟨ch, l, rc, d⟩ s rest h1 h2
    simp only at h1 h2
    subst h1 h2
    rfl
  · rintro ⟨ch, l, rc, d⟩ s h
    simp only at h
    subst h
    rfl

/-- C5, at the failing input: six interrupts arrive in a burst with no
consumer read.  If the listener has not run, two are discarded and the consumer
can read only 4 events however often it reads; if the listener dequeued after
the first, one is discarded and the consumer can read only 5. -/
theorem six_signal_burst_drops :
    (Relay.fresh.run (List.replicate 6 (.signal .interrupt))).discarded =
      [.interrupt, .interrupt] ∧
    (Relay.fresh.run (List.replicate 6 (.signal .interrupt))).pending.length = 4 ∧
    (∀ k, (Relay.drain k (Relay.fresh.run
      (List.replicate 6 (.signal .interrupt)))).received.length ≤ 4) ∧
    (Relay.drain 6 (Relay.fresh.run (List.replicate 6 (.signal .interrupt)))).received.length
      = 4 ∧
    (Relay.fresh.run (.signal .interrupt :: .dequeue ::
      List.replicate 5 (.signal .interrupt))).discarded = [.interrupt] ∧
    (∀ k, (Relay.drain k (Relay.fresh.run (.signal .interrupt :: .dequeue ::
      List.replicate 5 (.signal .interrupt)))).received.length ≤ 5) := by
  refine ⟨by decide, by decide, ?_, by decide, by decide, ?_⟩
  · intro k
    rw [(drain_spec k _ (by decide)).1]
    have : (Relay.fresh.run (List.replicate 6 (.signal .interrupt))).pending.length = 4 := by
      decide
    have h2 : (Relay.fresh.run (List.replicate 6 (.signal .interrupt))).received = [] := by
      decide
    rw [h2, List.nil_append, List.length_take]
    omega
  · intro k
    rw [(drain_spec k _ (by decide)).1]
    have : (Relay.fresh.run (.signal .interrupt :: .dequeue ::
      List.replicate 5 (.signal .interrupt))).pending.length = 5 := by decide
    have h2 : (Relay.fresh.run (.signal .interrupt :: .dequeue ::
      List.replicate 5 (.signal .interrupt))).received = [] := by decide
    rw [h2, List.nil_append, List.length_take]
    omega

/-- C7, at the failing input: the `exec` factory makes the first channel, four
interrupts arrive while its consumer does not read, the `watch` factory makes
the second channel, then one SIGTERM arrives after both calls.  The first relay
finds its `signalCh` full and discards the SIGTERM: however often its consumer
reads, it gets the four interrupts and no event for the SIGTERM, while the
second channel gets exactly one event.  The same happens when the listener of
the first relay already holds one of five interrupts. -/
theorem saturated_relay_misses_signal :
    ((Proc.afterInit sampleVersion).run sampleVersion saturatedRun).relays =
      [ { signalCh := [.interrupt, .interrupt, .interrupt, .interrupt], listener := .Armed,
          received := [], discarded := [.sigterm] },
        { signalCh := [.sigterm], listener := .Armed, received := [], discarded := [] } ] ∧
    ((((Proc.afterInit sampleVersion).run sampleVersion saturatedRun).drain 8 0).drain 8
        1).relays =
      [ { signalCh := [], listener := .Armed,
          received := [.interrupt, .interrupt, .interrupt, .interrupt],
          discarded := [.sigterm] },
        { signalCh := [], listener := .Armed, received := [.sigterm], discarded := [] } ] ∧
    (∀ k : Nat,
      ((((Proc.afterInit sampleVersion).run sampleVersion saturatedRun).drain k 0).relayOf
          (.result 0)).map Relay.received = some (List.replicate (min k 4) .interrupt) ∧
      ((((Proc.afterInit sampleVersion).run sampleVersion saturatedRun).drain k 0).relayOf
          (.result 0)).map Relay.discarded = some [.sigterm]) ∧
    ((Proc.afterInit sampleVersion).run sampleVersion saturatedRunHeld).relays =
      [ { signalCh := [.interrupt, .interrupt, .interrupt, .interrupt],
          listener := .Delivering .interrupt, received := [], discarded := [.sigterm] },
        { signalCh := [.sigterm], listener := .Armed, received := [], discarded := [] } ] ∧
    ((((Proc.afterInit sampleVersion).run sampleVersion saturatedRunHeld).drain 8 0).drain 8
        1).relays =
      [ { signalCh := [], listener := .Armed,
          received := [.interrupt, .interrupt, .interrupt, .interrupt, .interrupt],
          discarded := [.sigterm] },
        { signalCh := [], listener := .Armed, received := [.sigterm], discarded := [] } ] := by
  refine ⟨by decide, by decide, ?_, by decide, by decide⟩
  intro k
  have h0 : ((Proc.afterInit sampleVersion).run sampleVersion saturatedRun).relays[0]? =
      some { signalCh := List.replicate 4 .interrupt, listener := .Armed,
             received := [], discarded := [.sigterm] } := by decide
  obtain ⟨h1, _, h3, _⟩ := drain_spec k
    { signalCh := List.replicate 4 .interrupt, listener := .Armed,
      received := [], discarded := [.sigterm] } (by decide)
  constructor
  · show ((Proc.drain _ _ _).relays[0]?).map Relay.received = _
    rw [drain_getElem?_eq, h0, Option.map_some', Option.map_some', h1]
    show some ([] ++ List.take k (List.replicate 4 Signal.interrupt)) = _
    rw [List.nil_append, List.take_replicate]
  · show ((Proc.drain _ _ _).relays[0]?).map Relay.discarded = _
    rw [drain_getElem?_eq, h0, Option.map_some', Option.map_some', h3]

end Consul
